import Mathlib

/-!
Verification of the sdjquiz quiz session engine.

Shallow embedding of the sdjquiz data model (`sdjquiz/model.py`) and the
session engine (`sdjquiz/controller.py`), with theorems checking the
natural-language specification against the code.

Randomness injection points (`random.sample` in `Quiz.get_questions`,
`random.shuffle` in `QuizController.start`) are modelled by explicit
permutation parameters, constrained by `List.Perm (List.range n)`
hypotheses where the claims need them.  Python exceptions are modelled
by the `PyError` type and explicit `Except` / paired-`Option` results.
Python `/` float division is modelled over `ℚ` (the claims only concern
the zero-divisor failure, not float rounding).
-/

namespace Sdjquiz

/-- Python exception kinds that the embedded code can raise. -/
inductive PyError where
  | typeError
  | valueError
  | keyError
  | quizzError
  | zeroDivisionError
deriving DecidableEq

/-- The `Answer` class from `model.py`: an answer text and its correctness flag. -/
structure Answer where
  text : String
  correct : Bool
deriving DecidableEq

/-- The `Question` class from `model.py`: private fields of the Python class. -/
structure Question where
  unique_id : String
  title : String
  text : String
  keywords : List String
  score : Int
  answers : List Answer
deriving DecidableEq

/-- Model of `Question.__init__`: `unique_id` defaults to a freshly generated uuid
(`genId` stands for the generated `str(uuid.uuid4())`); every other field is
stored as passed, with no validation (in particular the score sign is NOT
checked in the constructor). -/
def Question.init (genId : String) (title text : String) (keywords : List String)
    (score : Int) (answers : List Answer) (unique_id : Option String) : Question :=
  { unique_id := unique_id.getD genId, title := title, text := text,
    keywords := keywords, score := score, answers := answers }

/-- The `Question.score` setter: raises `ValueError` on a negative value and
leaves the object untouched; otherwise stores the value.  The returned pair is
(object after the call, raised exception if any). -/
def Question.setScore (q : Question) (v : Int) : Question × Option PyError :=
  if v < 0 then (q, some PyError.valueError) else ({ q with score := v }, none)

/-- The `Question.title` setter: lowercases on write. -/
def Question.setTitle (q : Question) (t : String) : Question :=
  { q with title := t.toLower }

/-- Python `dict` insertion `d[k] = v`: overwrites in place if the key exists,
appends otherwise (Python dicts preserve first-insertion order). -/
def dictInsert (bank : List (String × Question)) (k : String) (q : Question) :
    List (String × Question) :=
  if bank.any (fun p => p.1 == k) then
    bank.map (fun p => if p.1 == k then (k, q) else p)
  else bank ++ [(k, q)]

/-- Model of the dict comprehension building the bank from the question list. -/
def buildBank (questions : List Question) : List (String × Question) :=
  questions.foldl (fun bank q => dictInsert bank q.unique_id q) []

/-- The `Quiz` class from `model.py`; `questions_bank` is the Python dict, modelled as an
insertion-ordered association list. -/
structure Quiz where
  title : String
  author : String
  description : String
  questions_bank : List (String × Question)
deriving DecidableEq

/-- Model of `Quiz.__init__`: stores `title` and `description` exactly as passed (the
constructor does NOT go through the lowercasing property setters) and builds
the question bank dict from the list. -/
def Quiz.init (title author description : String) (questions : Option (List Question)) :
    Quiz :=
  { title := title, author := author, description := description,
    questions_bank := match questions with
      | some qs => buildBank qs
      | none => [] }

/-- The `Quiz.title` setter: lowercases on write. -/
def Quiz.setTitle (quiz : Quiz) (t : String) : Quiz :=
  { quiz with title := t.toLower }

/-- The `Quiz.description` setter: lowercases on write. -/
def Quiz.setDescription (quiz : Quiz) (d : String) : Quiz :=
  { quiz with description := d.toLower }

/-- The list `self.__questions_bank.values()`. -/
def Quiz.bankValues (quiz : Quiz) : List Question :=
  quiz.questions_bank.map Prod.snd

/-- Model of `Quiz.questions_count`: size of the bank. -/
def Quiz.questions_count (quiz : Quiz) : Nat :=
  quiz.questions_bank.length

/-- Model of `Quiz.max_score`: sum of the scores of all questions in the bank
(the Python `if questions_count > 0 else 0` guard is the same sum). -/
def Quiz.max_score (quiz : Quiz) : Int :=
  (quiz.bankValues.map Question.score).sum

/-- Indexing a list by a list of positions; `applyPerm perm l` is how we model
taking elements of `l` in the order prescribed by `perm`. -/
def applyPerm (perm : List Nat) (l : List α) : List α :=
  perm.filterMap l.get?

/-- Model of `Quiz.get_questions(count)` from `model.py`:

    if count < 1 or count > self.questions_count: count = self.questions_count
    return random.sample(list(self.__questions_bank.values()), count)

`random.sample(pop, c)` (for `c ≤ len(pop)`) returns the first `c` entries of
a random permutation of `pop`; the permutation is the `perm` parameter here. -/
def Quiz.get_questions (quiz : Quiz) (count : Int) (perm : List Nat) : List Question :=
  let n := quiz.questions_count
  let c : Nat := if count < 1 ∨ (n : Int) < count then n else count.toNat
  applyPerm (perm.take c) quiz.bankValues

/-- Model of `set(idx for idx, answer in enumerate(answers) if answer.correct)`
(Python `int` indices, hence `Finset ℤ`). -/
def correctIndexSet (answers : List Answer) : Finset Int :=
  (answers.enum.filterMap
    (fun p => if p.2.correct then some ((p.1 : Int)) else none)).toFinset

/-- The in-place `random.shuffle(answers)` of `QuizController.start`: the
question object's stored answer list becomes the shuffled ordering. -/
def Question.shuffleAnswers (q : Question) (perm : List Nat) : Question :=
  { q with answers := applyPerm perm q.answers }

/-- One iteration of the question loop in `QuizController.start` (lines
126-142): shuffle the question's own answer list in place, compute the
correct-index set of the shuffled ordering, and score the user's answer set by
exact set equality.  Returns (score gained, the question object after the
in-place shuffle). -/
def questionStep (q : Question) (shufflePerm : List Nat) (userAnswer : Finset Int) :
    Int × Question :=
  let shuffled := q.shuffleAnswers shufflePerm
  let correct := correctIndexSet shuffled.answers
  (if userAnswer = correct then q.score else 0, shuffled)

/-- The score accumulated by `for idx, question in enumerate(questions)` from
loop index `i` on; `shufflePerms i` and `userAnswers i` are the shuffle and the
user's (already validated and parsed) answer set at loop index `i`. -/
def runQuestionsFrom (shufflePerms : Nat → List Nat) (userAnswers : Nat → Finset Int) :
    Nat → List Question → Int
  | _, [] => 0
  | i, q :: rest =>
      (questionStep q (shufflePerms i) (userAnswers i)).1 +
        runQuestionsFrom shufflePerms userAnswers (i + 1) rest

/-- What `QuizController.start` passes to `show_result` at completion. -/
structure SessionResult where
  title : String
  score : Int
  max_score : Int
deriving DecidableEq

/-- The post-load part of `QuizController.start` (lines 116-148): select the
questions, set `max_score` to the sum of the selected questions' scores, run
the question loop, and report `(quiz.title, score, max_score)`. -/
def sessionStart (quiz : Quiz) (countInput : Int) (samplePerm : List Nat)
    (shufflePerms : Nat → List Nat) (userAnswers : Nat → Finset Int) : SessionResult :=
  let questions := quiz.get_questions countInput samplePerm
  { title := quiz.title,
    score := runQuestionsFrom shufflePerms userAnswers 0 questions,
    max_score := (questions.map Question.score).sum }

/-! ## Deserialization (`from_dict`)

Raw records are mappings with possibly-missing keys, modelled by `Option`
fields.  `Answer(**answer)` / `Question(**data)` / `Quiz(**data)` raise
`TypeError` when a required argument is missing; `data["k"]` raises
`KeyError` when the key is missing. -/

/-- A raw answer mapping `{text, correct}`. -/
structure AnswerRecord where
  text : Option String
  correct : Option Bool
deriving DecidableEq

/-- A raw question mapping. -/
structure QuestionRecord where
  title : Option String
  text : Option String
  keywords : Option (List String)
  score : Option Int
  answers : Option (List AnswerRecord)
  unique_id : Option String
deriving DecidableEq

/-- A raw quiz mapping. -/
structure QuizRecord where
  title : Option String
  author : Option String
  description : Option String
  questions : Option (List QuestionRecord)
deriving DecidableEq

/-- Model of `Answer(**answer)`: `text` is required (`TypeError` when missing),
`correct` defaults to `False`. -/
def answerOfRecord (r : AnswerRecord) : Except PyError Answer :=
  match r.text with
  | none => Except.error PyError.typeError
  | some t => Except.ok { text := t, correct := r.correct.getD false }

/-- Fail-fast traversal of a list comprehension whose body can raise. -/
def mapExcept (f : α → Except PyError β) : List α → Except PyError (List β)
  | [] => Except.ok []
  | x :: xs =>
    match f x with
    | Except.error e => Except.error e
    | Except.ok y =>
      match mapExcept f xs with
      | Except.error e => Except.error e
      | Except.ok ys => Except.ok (y :: ys)

/-- Fail-fast traversal carrying the element index (used to thread the uuid
generator through the question list). -/
def mapExceptIdx (f : Nat → α → Except PyError β) : Nat → List α → Except PyError (List β)
  | _, [] => Except.ok []
  | i, x :: xs =>
    match f i x with
    | Except.error e => Except.error e
    | Except.ok y =>
      match mapExceptIdx f (i + 1) xs with
      | Except.error e => Except.error e
      | Except.ok ys => Except.ok (y :: ys)

/-- Model of `Question.from_dict`: reads `question_data["answers"]` (`KeyError` when the
key is missing), builds the `Answer` objects (each can raise `TypeError`), then
calls `Question(**question_data)` (`TypeError` when a required field is
missing).  No error is raised for a negative score: `Question.__init__` stores
the score unchecked.  `genId` is the uuid generated when `unique_id` is
absent. -/
def Question.from_dict (genId : String) (r : QuestionRecord) : Except PyError Question :=
  match r.answers with
  | none => Except.error PyError.keyError
  | some answerRecs =>
    match mapExcept answerOfRecord answerRecs with
    | Except.error e => Except.error e
    | Except.ok answers =>
      match r.title, r.text, r.keywords, r.score with
      | some title, some text, some keywords, some score =>
          Except.ok (Question.init genId title text keywords score answers r.unique_id)
      | _, _, _, _ => Except.error PyError.typeError

/-- Model of `Quiz.from_dict`: reads `quiz_data["questions"]` (`KeyError` when missing)
and builds the questions OUTSIDE the `try` block — any `KeyError`/`TypeError`
from a malformed question record propagates unwrapped.  Only the final
`Quiz(**quiz_data)` call is inside the `try`: its `TypeError`/`ValueError` is
caught and re-raised as `QuizzError`.  `supply i` is the uuid generated for
the `i`-th question when it carries no `unique_id`. -/
def Quiz.from_dict (supply : Nat → String) (r : QuizRecord) : Except PyError Quiz :=
  match r.questions with
  | none => Except.error PyError.keyError
  | some questionRecs =>
    match mapExceptIdx (fun i q => Question.from_dict (supply i) q) 0 questionRecs with
    | Except.error e => Except.error e
    | Except.ok questions =>
      match r.title, r.author, r.description with
      | some title, some author, some description =>
          Except.ok (Quiz.init title author description (some questions))
      | _, _, _ => Except.error PyError.quizzError

/-! ## The answer validator and parser (`ConsoleQuizController`) -/

/-- Decimal digits of `n`, least significant first, by fuel recursion (the
fuel `n` itself always suffices). -/
def digitsAux : Nat → Nat → List Nat
  | 0, _ => []
  | _ + 1, 0 => []
  | fuel + 1, n + 1 => (n + 1) % 10 :: digitsAux fuel ((n + 1) / 10)

/-- The characters of Python `str(n)` for a natural `n`: decimal digits, most
significant first, no leading zeros. -/
def decimalDigitChars (n : Nat) : List Char :=
  if n = 0 then ['0'] else ((digitsAux n n).reverse.map Nat.digitChar)

/-- The character class `[1-{max_index}]` that
`ConsoleQuizController.is_valid_answer` builds by f-string interpolation,
under Python's character-class semantics: the first three characters
`1`, `-`, `d₀` (where `d₀` is the first digit of `max_index`) form the range
`'1'..d₀`, and every remaining digit character of `max_index` is a literal
member.  For `max_index ≤ 9` this is the intended class `'1'..digit`; for
`max_index ≥ 10` it degenerates (e.g. `[1-10]` is the set `{'0', '1'}`). -/
def regexCharClass (max_index : Nat) (c : Char) : Bool :=
  match decimalDigitChars max_index with
  | [] => false
  | d :: rest => (decide ('1' ≤ c) && decide (c ≤ d)) || rest.contains c

/-- Matcher for the tail `(,[1-m]){values-1}$` of the validator's pattern:
exactly `k` repetitions of a comma followed by one class character, then the
anchor `$`.  Python's `$` (without `re.MULTILINE`) matches at the end of the
string or just before a newline that is the string's last character, so the
remainder after the last group must be `[]` or `['\n']`. -/
def matchSuffix (cls : Char → Bool) : Nat → List Char → Bool
  | 0, [] => true
  | 0, ['\n'] => true
  | k + 1, ',' :: c :: rest => cls c && matchSuffix cls k rest
  | _, _ => false

/-- Matcher for the whole pattern `^[1-m](,[1-m]){k}$`: one class character
followed by `k` comma-separated class characters, then the `$` anchor
(end of string, or a single trailing newline). -/
def headMatch (cls : Char → Bool) (k : Nat) : List Char → Bool
  | [] => false
  | c :: rest => cls c && matchSuffix cls k rest

/-- Model of `ConsoleQuizController.is_valid_answer(text_string, max_index, values)`:

    re.match(f"^[1-{max_index}](,[1-{max_index}]){{values-1}}$", text_string)

`None` input is rejected; otherwise the whole string must be one class
character followed by `values - 1` comma-separated class characters, up to the
anchor `$`, which Python also lets match just before a single trailing
newline (a candidate ending in one newline is accepted whenever its body is).
The embedding covers `values ≥ 1`; for `values = 0` the Python f-string
degenerates to a literal `{-1}` that no claim exercises. -/
def is_valid_answer (text_string : Option String) (max_index values : Nat) : Bool :=
  match text_string with
  | none => false
  | some s => headMatch (regexCharClass max_index) (values - 1) s.data

/-- Removes the single trailing newline that the `$` anchor may skip: the part
of the candidate that the pattern core itself must consume. -/
def stripNl : List Char → List Char
  | [] => []
  | ['\n'] => []
  | c :: rest => c :: stripNl rest

/-- Python `s.split(",")` on the character list of `s`
(`"".split(",") == [""]`). -/
def splitComma : List Char → List (List Char)
  | [] => [[]]
  | c :: rest =>
    if c = ',' then [] :: splitComma rest
    else
      match splitComma rest with
      | t :: ts => (c :: t) :: ts
      | [] => [[c]]

/-- Numeric value of a digit string; `none` when some character is not a
digit or the string is empty (where Python `int()` would raise). -/
def tokenNum (t : List Char) : Option Nat :=
  if t ≠ [] ∧ t.all Char.isDigit then
    some (t.foldl (fun acc c => 10 * acc + (c.toNat - 48)) 0)
  else none

/-- Python `int(tok)` for the validated (all-digit) tokens that
`get_user_answer` feeds it; the `getD` default is never reached on those. -/
def pyIntOfToken (t : List Char) : Int :=
  ((tokenNum t).getD 0 : Nat)

/-- The conversion step of `ConsoleQuizController.get_user_answer` applied to
the accepted input string:
`set(int(value) - 1 for value in user_answer.split(","))`. -/
def get_user_answer_parse (s : String) : Finset Int :=
  ((splitComma s.data).map (fun t => pyIntOfToken t - 1)).toFinset

/-- Python `/` true division: raises `ZeroDivisionError` on a zero divisor
(the float result is modelled exactly, over `ℚ`). -/
def pyDiv (a b : ℚ) : Except PyError ℚ :=
  if b = 0 then Except.error PyError.zeroDivisionError else Except.ok (a / b)

/-- Model of `QuizTUI.show_result` from `vue.py`: renders
`f"... {score}/{max_score} ({100*score/max_score:.2f}%)"`; the interesting
computation is the percentage `100*score/max_score`. -/
def show_result (quiz_title : String) (score max_score : Int) :
    Except PyError (String × ℚ) :=
  match pyDiv (100 * (score : ℚ)) ((max_score : ℚ)) with
  | Except.error e => Except.error e
  | Except.ok pct => Except.ok (quiz_title, pct)

/-! ## List-indexing helper lemmas -/

theorem applyPerm_length (l : List α) (is : List Nat) (h : ∀ i ∈ is, i < l.length) :
    (applyPerm is l).length = is.length := by
  induction is with
  | nil => rfl
  | cons i is ih =>
      have hi : i < l.length := h i (List.mem_cons_self i is)
      have hl : l.get? i = some (l.get ⟨i, hi⟩) := by
        rw [List.get?_eq_getElem?, List.getElem?_eq_getElem hi]; rfl
      simp only [applyPerm, List.filterMap_cons, hl]
      simp only [List.length_cons]
      rw [← ih (fun j hj => h j (List.mem_cons_of_mem i hj))]
      rfl

theorem applyPerm_subset (l : List α) (is : List Nat) :
    ∀ a ∈ applyPerm is l, a ∈ l := by
  intro a ha
  obtain ⟨i, _, hget⟩ := List.mem_filterMap.mp ha
  exact List.get?_mem hget

theorem applyPerm_nodup (l : List α) (is : List Nat) (hl : l.Nodup) (his : is.Nodup) :
    (applyPerm is l).Nodup := by
  refine List.Nodup.filterMap ?_ his
  intro i j a hi hj
  have hi' : l.get? i = some a := hi
  have hj' : l.get? j = some a := hj
  have hlen : i < l.length := by
    by_contra hle
    rw [List.get?_eq_getElem?, List.getElem?_eq_none (Nat.le_of_not_lt hle)] at hi'
    exact Option.noConfusion hi'
  refine List.getElem?_inj hlen hl ?_
  rw [← List.get?_eq_getElem?, ← List.get?_eq_getElem?, hi', hj']

theorem applyPerm_range (l : List α) : applyPerm (List.range l.length) l = l := by
  induction l with
  | nil => rfl
  | cons a t ih =>
      show applyPerm (List.range (t.length + 1)) (a :: t) = a :: t
      rw [List.range_succ_eq_map]
      simp only [applyPerm, List.filterMap_cons, List.filterMap_map]
      have hcomp : ((a :: t).get? ∘ Nat.succ) = t.get? := by
        funext i; rfl
      rw [hcomp]
      exact congrArg (a :: ·) ih

theorem applyPerm_perm (l : List α) (is : List Nat)
    (h : is.Perm (List.range l.length)) : (applyPerm is l).Perm l := by
  have := List.Perm.filterMap l.get? h
  rw [show List.filterMap l.get? (List.range l.length) = applyPerm (List.range l.length) l
        from rfl, applyPerm_range] at this
  exact this

theorem bankValues_length (quiz : Quiz) :
    quiz.bankValues.length = quiz.questions_count := by
  simp [Quiz.bankValues, Quiz.questions_count]

/-! ## Claim theorems -/

/-- C1: for every question, the user's answer earns the question's score iff
the user's 0-based index set is set-equal to the correct-index set of the
shuffled display ordering; any non-equal set (strict subset, superset,
disjoint) adds nothing. -/
theorem scoring_exact_match_no_partial_credit (q : Question) (shufflePerm : List Nat)
    (userAnswer : Finset Int) :
    ((questionStep q shufflePerm userAnswer).1 = q.score ∧
      userAnswer = correctIndexSet ((q.shuffleAnswers shufflePerm).answers)) ∨
    ((questionStep q shufflePerm userAnswer).1 = 0 ∧
      userAnswer ≠ correctIndexSet ((q.shuffleAnswers shufflePerm).answers)) := by
  by_cases h : userAnswer = correctIndexSet ((q.shuffleAnswers shufflePerm).answers)
  · exact Or.inl ⟨by simp [questionStep, h], h⟩
  · exact Or.inr ⟨by simp [questionStep, h], h⟩

/-- C7: assigning a negative value to a question's score fails with
`ValueError` and leaves the stored score (and the whole object) unchanged;
assigning a non-negative value succeeds and stores it. -/
theorem score_setter_rejects_negative (q : Question) (v : Int) :
    (v < 0 → Question.setScore q v = (q, some PyError.valueError)) ∧
    (0 ≤ v → Question.setScore q v = ({ q with score := v }, none)) := by
  constructor
  · intro h; simp [Question.setScore, h]
  · intro h; simp [Question.setScore, Int.not_lt.mpr h]

/-- Sample question used to instantiate hypothesis-bearing theorems. -/
def demoQuestion : Question :=
  Question.init "gen0" "capitals" "what is the capital of france?" ["geo"] 4
    [⟨"Paris", true⟩, ⟨"Lyon", false⟩] (some "q-demo")

theorem score_setter_rejects_negative_witness :
    Question.setScore demoQuestion (-3) = (demoQuestion, some PyError.valueError) ∧
    Question.setScore demoQuestion 7 = ({ demoQuestion with score := 7 }, none) :=
  ⟨(score_setter_rejects_negative demoQuestion (-3)).1 (by decide),
   (score_setter_rejects_negative demoQuestion 7).2 (by decide)⟩

/-- C9: the result report divides the achieved score by the presented
questions' maximum score; it fails with `ZeroDivisionError` exactly when that
maximum is 0, and in particular a session whose selected questions all have
score 0 ends in the division-by-zero failure instead of a report. -/
theorem show_result_zero_max_score_fails (quiz : Quiz) (countInput : Int)
    (samplePerm : List Nat) (shufflePerms : Nat → List Nat)
    (userAnswers : Nat → Finset Int)
    (hzero : ∀ q ∈ quiz.get_questions countInput samplePerm, q.score = 0) :
    (∀ (t : String) (s m : Int),
        (show_result t s m = Except.error PyError.zeroDivisionError ↔ m = 0)) ∧
    show_result (sessionStart quiz countInput samplePerm shufflePerms userAnswers).title
        (sessionStart quiz countInput samplePerm shufflePerms userAnswers).score
        (sessionStart quiz countInput samplePerm shufflePerms userAnswers).max_score =
      Except.error PyError.zeroDivisionError := by
  have hgen : ∀ (t : String) (s m : Int),
      show_result t s m = Except.error PyError.zeroDivisionError ↔ m = 0 := by
    intro t s m
    constructor
    · intro h
      by_contra hm
      have hq : ((m : ℚ)) ≠ 0 := Int.cast_ne_zero.mpr hm
      simp [show_result, pyDiv, hq] at h
    · intro h
      subst h
      simp [show_result, pyDiv]
  refine ⟨hgen, ?_⟩
  rw [hgen]
  show ((quiz.get_questions countInput samplePerm).map Question.score).sum = 0
  exact List.sum_eq_zero (by
    intro x hx
    obtain ⟨q, hq, rfl⟩ := List.mem_map.mp hx
    exact hzero q hq)

/-- Quiz with an empty question bank. -/
def emptyQuiz : Quiz := Quiz.init "t" "a" "d" none

theorem show_result_zero_max_score_fails_witness :
    show_result (sessionStart emptyQuiz 0 [] (fun _ => []) (fun _ => ∅)).title
        (sessionStart emptyQuiz 0 [] (fun _ => []) (fun _ => ∅)).score
        (sessionStart emptyQuiz 0 [] (fun _ => []) (fun _ => ∅)).max_score =
      Except.error PyError.zeroDivisionError :=
  (show_result_zero_max_score_fails emptyQuiz 0 [] (fun _ => []) (fun _ => ∅)
    (by intro q hq; simp [Quiz.get_questions, applyPerm, emptyQuiz, Quiz.init,
          Quiz.bankValues] at hq)).2

/-- C2: `get_questions(count)` returns pairwise-distinct questions drawn from
the bank: for `1 ≤ count ≤ bank size` exactly `count` of them with no repeats,
and otherwise the whole bank exactly once (clamped, not an error). -/
theorem get_questions_sample_spec (quiz : Quiz) (count : Int) (perm : List Nat)
    (hperm : perm.Perm (List.range quiz.questions_count))
    (hnodup : quiz.bankValues.Nodup) :
    (1 ≤ count → count ≤ (quiz.questions_count : Int) →
      (quiz.get_questions count perm).length = count.toNat ∧
      (∀ q ∈ quiz.get_questions count perm, q ∈ quiz.bankValues) ∧
      (quiz.get_questions count perm).Nodup) ∧
    ((count < 1 ∨ (quiz.questions_count : Int) < count) →
      (quiz.get_questions count perm).Perm quiz.bankValues) := by
  have hplen : perm.length = quiz.questions_count := by
    rw [hperm.length_eq, List.length_range]
  have hpnodup : perm.Nodup := hperm.nodup_iff.mpr (List.nodup_range _)
  have hmemlt : ∀ i ∈ perm, i < quiz.bankValues.length := by
    intro i hi
    rw [bankValues_length]
    exact List.mem_range.mp (hperm.subset hi)
  constructor
  · intro h1 h2
    have hcond : ¬(count < 1 ∨ (quiz.questions_count : Int) < count) := by omega
    have hcle : count.toNat ≤ perm.length := by
      rw [hplen]; omega
    simp only [Quiz.get_questions, if_neg hcond]
    have htake : ∀ i ∈ perm.take count.toNat, i < quiz.bankValues.length :=
      fun i hi => hmemlt i (List.take_subset _ _ hi)
    refine ⟨?_, applyPerm_subset _ _, ?_⟩
    · rw [applyPerm_length _ _ htake, List.length_take]
      omega
    · exact applyPerm_nodup _ _ hnodup ((List.take_sublist _ _).nodup hpnodup)
  · intro hcond
    simp only [Quiz.get_questions, if_pos hcond]
    rw [← hplen, List.take_length]
    exact applyPerm_perm _ _ (by rw [bankValues_length]; exact hperm)

/-- Second sample question (distinct from `demoQuestion`). -/
def demoQuestionB : Question :=
  Question.init "gen1" "rivers" "longest river of africa?" ["geo"] 6
    [⟨"Nile", true⟩, ⟨"Seine", false⟩] (some "q-b")

/-- Two-question quiz used to instantiate hypothesis-bearing theorems. -/
def demoQuiz : Quiz :=
  Quiz.init "demo quiz" "author" "a demo" (some [demoQuestion, demoQuestionB])

theorem get_questions_sample_spec_witness :
    (demoQuiz.get_questions 1 [1, 0]).length = (1 : Int).toNat ∧
    (demoQuiz.get_questions 5 [1, 0]).Perm demoQuiz.bankValues :=
  ⟨((get_questions_sample_spec demoQuiz 1 [1, 0] (by decide) (by decide)).1
      (by decide) (by decide)).1,
   (get_questions_sample_spec demoQuiz 5 [1, 0] (by decide) (by decide)).2
      (by decide)⟩

theorem get_questions_full_perm (quiz : Quiz) (perm : List Nat)
    (hperm : perm.Perm (List.range quiz.questions_count)) :
    (quiz.get_questions (quiz.questions_count : Int) perm).Perm quiz.bankValues := by
  have hplen : perm.length = quiz.questions_count := by
    rw [hperm.length_eq, List.length_range]
  by_cases h0 : quiz.questions_count = 0
  · have hb : quiz.bankValues = [] := by
      rw [← List.length_eq_zero, bankValues_length, h0]
    simp [Quiz.get_questions, h0, hb, applyPerm]
  · have hcond : ¬((quiz.questions_count : Int) < 1 ∨
        (quiz.questions_count : Int) < (quiz.questions_count : Int)) := by omega
    simp only [Quiz.get_questions, if_neg hcond, Int.toNat_natCast]
    rw [← hplen, List.take_length]
    exact applyPerm_perm _ _ (by rw [bankValues_length]; exact hperm)

theorem runQuestionsFrom_all_correct (shufflePerms : Nat → List Nat)
    (userAnswers : Nat → Finset Int) :
    ∀ (qs : List Question) (i : Nat),
      (∀ j (hj : j < qs.length),
          userAnswers (i + j) =
            correctIndexSet ((qs.get ⟨j, hj⟩).shuffleAnswers (shufflePerms (i + j))).answers) →
      runQuestionsFrom shufflePerms userAnswers i qs = (qs.map Question.score).sum := by
  intro qs
  induction qs with
  | nil => intro i _; rfl
  | cons q rest ih =>
      intro i h
      have h0 := h 0 (Nat.succ_pos _)
      rw [Nat.add_zero] at h0
      have h0' : userAnswers i =
          correctIndexSet ((q.shuffleAnswers (shufflePerms i))).answers := h0
      have hstep : (questionStep q (shufflePerms i) (userAnswers i)).1 = q.score := by
        simp only [questionStep]
        rw [if_pos h0']
      show (questionStep q (shufflePerms i) (userAnswers i)).1 +
          runQuestionsFrom shufflePerms userAnswers (i + 1) rest =
        q.score + (rest.map Question.score).sum
      rw [hstep, ih (i + 1) ?_]
      intro j hj
      have hx := h (j + 1) (Nat.succ_lt_succ hj)
      rwa [show i + (j + 1) = (i + 1) + j by omega] at hx

/-- C8: at completion the engine reports the quiz title and a maximum score
equal to the sum of scores over exactly the presented questions; with the
default full-bank selection and all answers correct, the final score equals
that maximum, which equals the sum of the whole bank's scores. -/
theorem completion_reports_selected_sum (quiz : Quiz) (samplePerm : List Nat)
    (shufflePerms : Nat → List Nat) (userAnswers : Nat → Finset Int)
    (hperm : samplePerm.Perm (List.range quiz.questions_count))
    (hans : ∀ j (hj : j <
        (quiz.get_questions (quiz.questions_count : Int) samplePerm).length),
        userAnswers j = correctIndexSet
          (((quiz.get_questions (quiz.questions_count : Int) samplePerm).get
              ⟨j, hj⟩).shuffleAnswers (shufflePerms j)).answers) :
    (∀ countInput : Int,
        (sessionStart quiz countInput samplePerm shufflePerms userAnswers).title =
          quiz.title ∧
        (sessionStart quiz countInput samplePerm shufflePerms userAnswers).max_score =
          ((quiz.get_questions countInput samplePerm).map Question.score).sum) ∧
    (sessionStart quiz (quiz.questions_count : Int) samplePerm shufflePerms
        userAnswers).max_score = quiz.max_score ∧
    (sessionStart quiz (quiz.questions_count : Int) samplePerm shufflePerms
        userAnswers).score =
      (sessionStart quiz (quiz.questions_count : Int) samplePerm shufflePerms
        userAnswers).max_score := by
  refine ⟨fun countInput => ⟨rfl, rfl⟩, ?_, ?_⟩
  · exact ((get_questions_full_perm quiz samplePerm hperm).map Question.score).sum_eq
  · show runQuestionsFrom shufflePerms userAnswers 0
        (quiz.get_questions (quiz.questions_count : Int) samplePerm) = _
    rw [runQuestionsFrom_all_correct shufflePerms userAnswers _ 0
      (by intro j hj; simpa using hans j hj)]
    rfl

theorem completion_reports_selected_sum_witness :
    (sessionStart demoQuiz (demoQuiz.questions_count : Int) [0, 1] (fun _ => [0, 1])
        (fun _ => ({0} : Finset Int))).score = 10 ∧
    (sessionStart demoQuiz (demoQuiz.questions_count : Int) [0, 1] (fun _ => [0, 1])
        (fun _ => ({0} : Finset Int))).max_score = 10 := by
  have h := completion_reports_selected_sum demoQuiz [0, 1] (fun _ => [0, 1])
    (fun _ => ({0} : Finset Int)) (by decide)
    (by
      intro j hj
      have hj2 : j < 2 := hj
      interval_cases j
      · exact (by decide : ({0} : Finset Int) =
          correctIndexSet ((demoQuestion.shuffleAnswers [0, 1]).answers))
      · exact (by decide : ({0} : Finset Int) =
          correctIndexSet ((demoQuestionB.shuffleAnswers [0, 1]).answers)))
  have hmax : (sessionStart demoQuiz (demoQuiz.questions_count : Int) [0, 1]
      (fun _ => [0, 1]) (fun _ => ({0} : Finset Int))).max_score = 10 := by
    rw [h.2.1]; decide
  exact ⟨by rw [h.2.2, hmax], hmax⟩

/-! ## Deserialization claims (C3, C4) -/

/-- C3 (amended): `Quiz.from_dict` hands `title` and `description` straight to
`Quiz.__init__`, which stores them verbatim — reading them back yields the
record's input strings unchanged, not lowercase-normalized. -/
theorem from_dict_reads_back_verbatim (supply : Nat → String) (r : QuizRecord)
    (q : Quiz) (h : Quiz.from_dict supply r = Except.ok q) :
    ∃ t d, r.title = some t ∧ r.description = some d ∧
      q.title = t ∧ q.description = d := by
  simp only [Quiz.from_dict] at h
  cases hq : r.questions with
  | none => simp only [hq] at h; exact Except.noConfusion h
  | some qs =>
    simp only [hq] at h
    cases hm : mapExceptIdx (fun i p => Question.from_dict (supply i) p) 0 qs with
    | error e => simp only [hm] at h; exact Except.noConfusion h
    | ok l =>
      simp only [hm] at h
      cases ht : r.title with
      | none => simp only [ht] at h; exact Except.noConfusion h
      | some t =>
        simp only [ht] at h
        cases ha : r.author with
        | none => simp only [ha] at h; exact Except.noConfusion h
        | some a =>
          simp only [ha] at h
          cases hd : r.description with
          | none => simp only [hd] at h; exact Except.noConfusion h
          | some d =>
            simp only [hd, Except.ok.injEq] at h
            exact ⟨t, d, rfl, rfl, by rw [← h]; rfl, by rw [← h]; rfl⟩

/-- Sample raw answer record. -/
def caseAnswerRec : AnswerRecord := { text := some "Paris", correct := some true }

/-- Sample raw question record, all fields present. -/
def caseQuestionRec : QuestionRecord :=
  { title := some "Capitals", text := some "Capital of France?",
    keywords := some ["geo"], score := some 4, answers := some [caseAnswerRec],
    unique_id := some "q1" }

/-- Sample raw quiz record with mixed-case title and description. -/
def caseQuizRec : QuizRecord :=
  { title := some "My Quiz", author := some "Bob", description := some "The DESC",
    questions := some [caseQuestionRec] }

/-- The quiz that `Quiz.from_dict` builds from `caseQuizRec`. -/
def caseQuiz : Quiz :=
  Quiz.init "My Quiz" "Bob" "The DESC"
    (some [Question.init "gen" "Capitals" "Capital of France?" ["geo"] 4
      [⟨"Paris", true⟩] (some "q1")])

/-- Counterexample to C3 as stated: a record whose title is `"My Quiz"` reads
back as `"My Quiz"`, not as the lowercase-normalized `"my quiz"` (and likewise
for the description). -/
theorem from_dict_no_lowercase_normalization :
    Quiz.from_dict (fun _ => "gen") caseQuizRec = Except.ok caseQuiz ∧
    caseQuiz.title = "My Quiz" ∧ caseQuiz.description = "The DESC" ∧
    caseQuiz.title ≠ "my quiz" ∧ caseQuiz.description ≠ "the desc" :=
  ⟨rfl, rfl, rfl, by decide, by decide⟩

theorem from_dict_reads_back_verbatim_witness :
    ∃ t d, caseQuizRec.title = some t ∧ caseQuizRec.description = some d ∧
      caseQuiz.title = t ∧ caseQuiz.description = d :=
  from_dict_reads_back_verbatim (fun _ => "gen") caseQuizRec caseQuiz rfl

/-- A question record carries every field the constructor requires (and every
answer record its `text`). -/
def QuestionRecord.complete (r : QuestionRecord) : Prop :=
  (∃ x, r.title = some x) ∧ (∃ x, r.text = some x) ∧ (∃ x, r.keywords = some x) ∧
    (∃ x, r.score = some x) ∧
    (∃ l, r.answers = some l ∧ ∀ a ∈ l, ∃ t, a.text = some t)

theorem mapExcept_answers_ok (l : List AnswerRecord)
    (h : ∀ a ∈ l, ∃ t, a.text = some t) :
    ∃ ys, mapExcept answerOfRecord l = Except.ok ys := by
  induction l with
  | nil => exact ⟨[], rfl⟩
  | cons a l ih =>
    obtain ⟨t, ht⟩ := h a (List.mem_cons_self a l)
    obtain ⟨ys, hys⟩ := ih (fun b hb => h b (List.mem_cons_of_mem a hb))
    exact ⟨⟨t, a.correct.getD false⟩ :: ys,
      by simp [mapExcept, answerOfRecord, ht, hys]⟩

theorem mapExcept_answers_err (l : List AnswerRecord)
    (h : ∃ a ∈ l, a.text = none) :
    mapExcept answerOfRecord l = Except.error PyError.typeError := by
  induction l with
  | nil => simp at h
  | cons a l ih =>
    obtain ⟨b, hb, hbt⟩ := h
    rcases List.mem_cons.mp hb with rfl | hbl
    · simp [mapExcept, answerOfRecord, hbt]
    · cases hat : a.text with
      | none => simp [mapExcept, answerOfRecord, hat]
      | some t => simp [mapExcept, answerOfRecord, hat, ih ⟨b, hbl, hbt⟩]

theorem question_from_dict_complete (genId : String) (r : QuestionRecord)
    (h : r.complete) : ∃ q, Question.from_dict genId r = Except.ok q := by
  obtain ⟨⟨t, ht⟩, ⟨x, hx⟩, ⟨k, hk⟩, ⟨s, hs⟩, ⟨l, hl, hans⟩⟩ := h
  obtain ⟨ys, hys⟩ := mapExcept_answers_ok l hans
  exact ⟨Question.init genId t x k s ys r.unique_id,
    by simp [Question.from_dict, hl, hys, ht, hx, hk, hs]⟩

theorem question_from_dict_incomplete (genId : String) (r : QuestionRecord)
    (h : ¬r.complete) :
    Question.from_dict genId r = Except.error PyError.keyError ∨
    Question.from_dict genId r = Except.error PyError.typeError := by
  cases hl : r.answers with
  | none => exact Or.inl (by simp [Question.from_dict, hl])
  | some l =>
    by_cases hans : ∀ a ∈ l, ∃ t, a.text = some t
    · obtain ⟨ys, hys⟩ := mapExcept_answers_ok l hans
      cases ht : r.title with
      | none => exact Or.inr (by simp [Question.from_dict, hl, hys, ht])
      | some t =>
        cases hx : r.text with
        | none => exact Or.inr (by simp [Question.from_dict, hl, hys, ht, hx])
        | some x =>
          cases hk : r.keywords with
          | none => exact Or.inr (by simp [Question.from_dict, hl, hys, ht, hx, hk])
          | some k =>
            cases hs : r.score with
            | none =>
              exact Or.inr (by simp [Question.from_dict, hl, hys, ht, hx, hk, hs])
            | some s =>
              exact absurd ⟨⟨t, ht⟩, ⟨x, hx⟩, ⟨k, hk⟩, ⟨s, hs⟩, ⟨l, hl, hans⟩⟩ h
    · have hnone : ∃ a ∈ l, a.text = none := by
        push_neg at hans
        obtain ⟨a, ha, hat⟩ := hans
        refine ⟨a, ha, ?_⟩
        cases h2 : a.text with
        | none => rfl
        | some t => exact absurd h2 (hat t)
      exact Or.inr (by simp [Question.from_dict, hl, mapExcept_answers_err l hnone])

theorem mapQuestions_ok (supply : Nat → String) :
    ∀ (qs : List QuestionRecord) (i : Nat), (∀ p ∈ qs, p.complete) →
      ∃ l, mapExceptIdx (fun j p => Question.from_dict (supply j) p) i qs =
        Except.ok l := by
  intro qs
  induction qs with
  | nil => exact fun i _ => ⟨[], rfl⟩
  | cons p qs ih =>
    intro i h
    obtain ⟨y, hy⟩ := question_from_dict_complete (supply i) p (h p (List.mem_cons_self p qs))
    obtain ⟨l, hl⟩ := ih (i + 1) (fun b hb => h b (List.mem_cons_of_mem p hb))
    exact ⟨y :: l, by simp [mapExceptIdx, hy, hl]⟩

theorem mapQuestions_err (supply : Nat → String) :
    ∀ (qs : List QuestionRecord) (i : Nat), (∃ p ∈ qs, ¬p.complete) →
      mapExceptIdx (fun j p => Question.from_dict (supply j) p) i qs =
          Except.error PyError.keyError ∨
      mapExceptIdx (fun j p => Question.from_dict (supply j) p) i qs =
          Except.error PyError.typeError := by
  intro qs
  induction qs with
  | nil => intro i h; simp at h
  | cons p qs ih =>
    intro i h
    by_cases hp : p.complete
    · obtain ⟨y, hy⟩ := question_from_dict_complete (supply i) p hp
      have hrest : ∃ b ∈ qs, ¬b.complete := by
        obtain ⟨b, hb, hbc⟩ := h
        rcases List.mem_cons.mp hb with rfl | h2
        · exact absurd hp hbc
        · exact ⟨b, h2, hbc⟩
      rcases ih (i + 1) hrest with herr | herr
      · exact Or.inl (by simp [mapExceptIdx, hy, herr])
      · exact Or.inr (by simp [mapExceptIdx, hy, herr])
    · rcases question_from_dict_incomplete (supply i) p hp with herr | herr
      · exact Or.inl (by simp [mapExceptIdx, herr])
      · exact Or.inr (by simp [mapExceptIdx, herr])

/-- C4 (amended): only a `TypeError`/`ValueError` raised by the `Quiz`
constructor itself (a missing quiz-level field) is wrapped into the unified
`QuizzError`; a missing `questions` key escapes as a raw `KeyError`, a
malformed question record escapes as a raw `KeyError`/`TypeError` (the
question list is built outside the `try` block), and a record whose fields are
all present succeeds — a negative score is not rejected. -/
theorem from_dict_error_policy (supply : Nat → String) (r : QuizRecord) :
    (∀ qs, r.questions = some qs → (∀ p ∈ qs, p.complete) →
      (((∃ x, r.title = some x) ∧ (∃ x, r.author = some x) ∧
          (∃ x, r.description = some x)) →
          ∃ quiz, Quiz.from_dict supply r = Except.ok quiz) ∧
      (¬((∃ x, r.title = some x) ∧ (∃ x, r.author = some x) ∧
          (∃ x, r.description = some x)) →
          Quiz.from_dict supply r = Except.error PyError.quizzError)) ∧
    (r.questions = none → Quiz.from_dict supply r = Except.error PyError.keyError) ∧
    (∀ qs, r.questions = some qs → (∃ p ∈ qs, ¬p.complete) →
      (Quiz.from_dict supply r = Except.error PyError.keyError ∨
       Quiz.from_dict supply r = Except.error PyError.typeError)) := by
  refine ⟨?_, ?_, ?_⟩
  · intro qs hq hcomp
    obtain ⟨l, hl⟩ := mapQuestions_ok supply qs 0 hcomp
    constructor
    · rintro ⟨⟨t, ht⟩, ⟨a, ha⟩, ⟨d, hd⟩⟩
      exact ⟨Quiz.init t a d (some l), by simp [Quiz.from_dict, hq, hl, ht, ha, hd]⟩
    · intro hn
      cases ht : r.title with
      | none => simp [Quiz.from_dict, hq, hl, ht]
      | some t =>
        cases ha : r.author with
        | none => simp [Quiz.from_dict, hq, hl, ht, ha]
        | some a =>
          cases hd : r.description with
          | none => simp [Quiz.from_dict, hq, hl, ht, ha, hd]
          | some d => exact absurd ⟨⟨t, ht⟩, ⟨a, ha⟩, ⟨d, hd⟩⟩ hn
  · intro hq
    simp [Quiz.from_dict, hq]
  · intro qs hq hbad
    rcases mapQuestions_err supply qs 0 hbad with herr | herr
    · exact Or.inl (by simp [Quiz.from_dict, hq, herr])
    · exact Or.inr (by simp [Quiz.from_dict, hq, herr])

/-- Record identical to `caseQuizRec` but with the `author` key missing. -/
def noAuthorRec : QuizRecord := { caseQuizRec with author := none }

/-- Record with the `questions` key missing. -/
def noQuestionsRec : QuizRecord := { caseQuizRec with questions := none }

/-- Question record with the required `title` key missing. -/
def incompleteQuestionRec : QuestionRecord := { caseQuestionRec with title := none }

/-- Record whose single question record is malformed. -/
def badQuestionRec : QuizRecord :=
  { caseQuizRec with questions := some [incompleteQuestionRec] }

theorem from_dict_error_policy_witness :
    (∃ quiz, Quiz.from_dict (fun _ => "gen") caseQuizRec = Except.ok quiz) ∧
    Quiz.from_dict (fun _ => "gen") noAuthorRec = Except.error PyError.quizzError ∧
    Quiz.from_dict (fun _ => "gen") noQuestionsRec = Except.error PyError.keyError ∧
    (Quiz.from_dict (fun _ => "gen") badQuestionRec = Except.error PyError.keyError ∨
     Quiz.from_dict (fun _ => "gen") badQuestionRec =
       Except.error PyError.typeError) := by
  have hcomp : ∀ p ∈ [caseQuestionRec], p.complete := by
    intro p hp
    rw [List.mem_singleton] at hp
    subst hp
    exact ⟨⟨_, rfl⟩, ⟨_, rfl⟩, ⟨_, rfl⟩, ⟨_, rfl⟩,
      ⟨[caseAnswerRec], rfl, by
        intro a ha
        rw [List.mem_singleton] at ha
        subst ha
        exact ⟨_, rfl⟩⟩⟩
  refine ⟨((from_dict_error_policy (fun _ => "gen") caseQuizRec).1 _ rfl hcomp).1
      ⟨⟨_, rfl⟩, ⟨_, rfl⟩, ⟨_, rfl⟩⟩,
    ((from_dict_error_policy (fun _ => "gen") noAuthorRec).1 _ rfl hcomp).2 ?_,
    (from_dict_error_policy (fun _ => "gen") noQuestionsRec).2.1 rfl,
    (from_dict_error_policy (fun _ => "gen") badQuestionRec).2.2 _ rfl
      ⟨incompleteQuestionRec, List.mem_singleton.mpr rfl, ?_⟩⟩
  · rintro ⟨_, ⟨a, ha⟩, _⟩
    exact Option.noConfusion ha
  · rintro ⟨⟨t, ht⟩, _⟩
    exact Option.noConfusion ht

/-- The raw quiz record of `caseQuizRec` with a negative question score. -/
def negScoreQuizRec : QuizRecord :=
  { caseQuizRec with questions := some [{ caseQuestionRec with score := some (-5) }] }

/-- Counterexample to C4 as stated: a record whose question carries the
negative score `-5` is accepted by `Quiz.from_dict` without any error —
`Question.__init__` never checks the score sign. -/
theorem from_dict_accepts_negative_score :
    Quiz.from_dict (fun _ => "gen") negScoreQuizRec =
      Except.ok (Quiz.init "My Quiz" "Bob" "The DESC"
        (some [Question.init "gen" "Capitals" "Capital of France?" ["geo"] (-5)
          [⟨"Paris", true⟩] (some "q1")])) := rfl

/-! ## Analysis of the regex answer validator (C5, C10) -/

theorem digitsAux_zero (fuel : Nat) : digitsAux fuel 0 = [] := by
  cases fuel <;> rfl

theorem digitsAux_spec :
    ∀ (fuel n : Nat), 1 ≤ n → n ≤ fuel →
      ∃ ds d, digitsAux fuel n = ds ++ [d] ∧ 1 ≤ d ∧ d ≤ 9 ∧ ∀ x ∈ ds, x ≤ 9 := by
  intro fuel
  induction fuel with
  | zero => intro n h1 h2; omega
  | succ f ih =>
    intro n h1 h2
    obtain ⟨m, rfl⟩ : ∃ m, n = m + 1 := ⟨n - 1, by omega⟩
    show ∃ ds d, ((m + 1) % 10 :: digitsAux f ((m + 1) / 10)) = ds ++ [d] ∧
      1 ≤ d ∧ d ≤ 9 ∧ ∀ x ∈ ds, x ≤ 9
    by_cases h : (m + 1) / 10 = 0
    · rw [h, digitsAux_zero]
      exact ⟨[], (m + 1) % 10, rfl, by omega, by omega, by simp⟩
    · have h10 : 1 ≤ (m + 1) / 10 := Nat.pos_of_ne_zero h
      have hle : (m + 1) / 10 ≤ f := by
        have := Nat.div_lt_self (Nat.succ_pos m) (by norm_num : 1 < 10)
        omega
      obtain ⟨ds, d, heq, hd1, hd9, hds⟩ := ih ((m + 1) / 10) h10 hle
      refine ⟨(m + 1) % 10 :: ds, d, by rw [heq, List.cons_append], hd1, hd9, ?_⟩
      intro x hx
      rcases List.mem_cons.mp hx with rfl | hx2
      · omega
      · exact hds x hx2

theorem decimalDigitChars_shape (n : Nat) (h : 1 ≤ n) :
    ∃ d rest, decimalDigitChars n = Nat.digitChar d :: rest ∧ 1 ≤ d ∧ d ≤ 9 := by
  obtain ⟨ds, d, heq, hd1, hd9, _⟩ := digitsAux_spec n n h (le_refl n)
  refine ⟨d, ds.reverse.map Nat.digitChar, ?_, hd1, hd9⟩
  unfold decimalDigitChars
  rw [if_neg (by omega), heq]
  simp

theorem digitChar_ge_one (d : Nat) (h1 : 1 ≤ d) (h9 : d ≤ 9) :
    '1' ≤ Nat.digitChar d := by
  interval_cases d <;> decide

theorem regexCharClass_one (n : Nat) (h : 1 ≤ n) : regexCharClass n '1' = true := by
  obtain ⟨d, rest, heq, hd1, hd9⟩ := decimalDigitChars_shape n h
  have h2 : decide (('1' : Char) ≤ Nat.digitChar d) = true :=
    decide_eq_true (digitChar_ge_one d hd1 hd9)
  unfold regexCharClass
  rw [heq]
  show (decide ('1' ≤ ('1' : Char)) && decide (('1' : Char) ≤ Nat.digitChar d)
      || rest.contains '1') = true
  rw [h2]
  rfl

theorem regexCharClass_of_single (n : Nat) (d : Char)
    (h : decimalDigitChars n = [d]) (c : Char) :
    regexCharClass n c = (decide ('1' ≤ c) && decide (c ≤ d)) := by
  unfold regexCharClass
  rw [h]
  simp

theorem regexCharClass_small (n : Nat) (h1 : 1 ≤ n) (h9 : n ≤ 9) (c : Char) :
    regexCharClass n c = (decide ('1' ≤ c) && decide (c ≤ Nat.digitChar n)) := by
  interval_cases n <;> exact regexCharClass_of_single _ _ (by decide) c

theorem splitComma_ne_nil : ∀ l : List Char, splitComma l ≠ [] := by
  intro l
  cases l with
  | nil => simp [splitComma]
  | cons c rest =>
    by_cases hc : c = ','
    · simp [splitComma, hc]
    · simp only [splitComma, if_neg hc]
      cases splitComma rest with
      | nil => simp
      | cons t ts => simp

theorem splitComma_comma_cons (rest : List Char) :
    splitComma (',' :: rest) = [] :: splitComma rest := by
  simp [splitComma]

theorem splitComma_cons_ne (c : Char) (hc : c ≠ ',') (rest : List Char) :
    ∃ t ts, splitComma rest = t :: ts ∧ splitComma (c :: rest) = (c :: t) :: ts := by
  cases hsp : splitComma rest with
  | nil => exact absurd hsp (splitComma_ne_nil rest)
  | cons t ts => exact ⟨t, ts, rfl, by simp [splitComma, hc, hsp]⟩

theorem matchSuffix_comma (cls : Char → Bool) (k : Nat) (l : List Char) :
    matchSuffix cls (k + 1) (',' :: l) = headMatch cls k l := by
  cases l with
  | nil => rfl
  | cons c rest => rfl

theorem matchSuffix_not_comma (cls : Char → Bool) (k : Nat) (d : Char) (hd : d ≠ ',')
    (l : List Char) : matchSuffix cls (k + 1) (d :: l) = false := by
  rw [matchSuffix.eq_def]
  split <;> simp_all

theorem matchSuffix_zero_singleton (cls : Char → Bool) (c : Char) (hc : c ≠ '\n') :
    matchSuffix cls 0 [c] = false := by
  rw [matchSuffix.eq_def]
  split <;> simp_all

theorem matchSuffix_zero_cons_cons (cls : Char → Bool) (d x : Char) (xs : List Char) :
    matchSuffix cls 0 (d :: x :: xs) = false := by
  rw [matchSuffix.eq_def]
  split <;> simp_all

theorem stripNl_cons_of (c : Char) (rest : List Char) (h : ¬(c = '\n' ∧ rest = [])) :
    stripNl (c :: rest) = c :: stripNl rest := by
  rw [stripNl.eq_def]
  split <;> simp_all

theorem stripNl_cons_cons (x y : Char) (rest : List Char) :
    stripNl (x :: y :: rest) = x :: stripNl (y :: rest) :=
  stripNl_cons_of x (y :: rest) (by simp)

theorem splitComma_singleton (c : Char) (hc : c ≠ ',') : splitComma [c] = [[c]] := by
  obtain ⟨t, ts, h1, h2⟩ := splitComma_cons_ne c hc []
  have ht : t = [] ∧ ts = [] := by
    have h1b : ([[]] : List (List Char)) = t :: ts := h1
    exact ⟨(List.cons.injEq _ _ _ _ ▸ h1b.symm).1,
      (List.cons.injEq _ _ _ _ ▸ h1b.symm).2⟩
  rw [h2, ht.1, ht.2]

theorem headMatch_nil_iff (cls : Char → Bool) (k : Nat) :
    headMatch cls k [] = true ↔
      ((splitComma ([] : List Char)).length = k + 1 ∧
        ∀ t ∈ splitComma ([] : List Char), ∃ c, t = [c] ∧ cls c = true) := by
  constructor
  · intro h; exact absurd h (by simp [headMatch])
  · rintro ⟨-, hall⟩
    obtain ⟨c, hc, -⟩ := hall [] (by simp [splitComma])
    exact absurd hc (by simp)

theorem headMatch_iff (cls : Char → Bool) (hcomma : cls ',' = false)
    (hnl : cls '\n' = false) :
    ∀ (m : Nat) (l : List Char), l.length ≤ m → ∀ k : Nat,
      (headMatch cls k l = true ↔
        ((splitComma (stripNl l)).length = k + 1 ∧
          ∀ t ∈ splitComma (stripNl l), ∃ c, t = [c] ∧ cls c = true)) := by
  intro m
  induction m with
  | zero =>
    intro l hl k
    have : l = [] := List.length_eq_zero.mp (Nat.le_zero.mp hl)
    subst this
    exact headMatch_nil_iff cls k
  | succ M ih =>
    intro l hl k
    cases l with
    | nil => exact headMatch_nil_iff cls k
    | cons c rest =>
      by_cases hc : c = ','
      · subst hc
        have hstrip : stripNl (',' :: rest) = ',' :: stripNl rest :=
          stripNl_cons_of ',' rest (by simp)
        constructor
        · intro h
          simp [headMatch, hcomma] at h
        · rintro ⟨-, hall⟩
          obtain ⟨c', hc', -⟩ := hall []
            (by rw [hstrip, splitComma_comma_cons]; exact List.mem_cons_self _ _)
          exact absurd hc' (by simp)
      · cases rest with
        | nil =>
          by_cases hcn : c = '\n'
          · subst hcn
            constructor
            · intro h
              simp [headMatch, hnl] at h
            · rintro ⟨-, hall⟩
              obtain ⟨c', hc', -⟩ := hall []
                (by
                  show ([] : List Char) ∈ splitComma (stripNl ['\n'])
                  rw [show stripNl ['\n'] = [] from rfl]
                  simp [splitComma])
              exact absurd hc' (by simp)
          · have hstrip : stripNl [c] = [c] :=
              stripNl_cons_of c [] (by simp [hcn])
            have hsp : splitComma [c] = [[c]] := splitComma_singleton c hc
            cases k with
            | zero =>
              constructor
              · intro h
                have hcls : cls c = true := by
                  simpa [headMatch, matchSuffix] using h
                refine ⟨by rw [hstrip, hsp]; rfl, ?_⟩
                rw [hstrip, hsp]
                intro t ht
                rw [List.mem_singleton] at ht
                subst ht
                exact ⟨c, rfl, hcls⟩
              · rintro ⟨-, hall⟩
                obtain ⟨c', hc', hcls⟩ := hall [c]
                  (by rw [hstrip, hsp]; exact List.mem_singleton.mpr rfl)
                have hcc : c = c' := by
                  injection hc'
                simp [headMatch, matchSuffix, hcc ▸ hcls]
            | succ j =>
              constructor
              · intro h
                have hms : matchSuffix cls (j + 1) [] = false := rfl
                simp [headMatch, hms] at h
              · rintro ⟨hlen, -⟩
                rw [hstrip, hsp] at hlen
                simp at hlen
        | cons d rest' =>
          by_cases hd : d = ','
          · subst hd
            have hstrip : stripNl (c :: ',' :: rest') = c :: ',' :: stripNl rest' := by
              rw [stripNl_cons_cons, stripNl_cons_of ',' rest' (by simp)]
            have hsp : splitComma (c :: ',' :: stripNl rest') =
                [c] :: splitComma (stripNl rest') := by
              obtain ⟨t, ts, h1, h2⟩ := splitComma_cons_ne c hc (',' :: stripNl rest')
              rw [splitComma_comma_cons] at h1
              injection h1 with h1a h1b
              rw [h2, ← h1a, ← h1b]
            cases k with
            | zero =>
              constructor
              · intro h
                have hms : matchSuffix cls 0 (',' :: rest') = false := rfl
                simp [headMatch, hms] at h
              · rintro ⟨hlen, -⟩
                rw [hstrip, hsp] at hlen
                have hne := splitComma_ne_nil (stripNl rest')
                simp only [List.length_cons] at hlen
                exact absurd (List.length_eq_zero.mp (by omega)) hne
            | succ j =>
              have hms : matchSuffix cls (j + 1) (',' :: rest') = headMatch cls j rest' :=
                matchSuffix_comma cls j rest'
              have hih := ih rest' (by
                simp only [List.length_cons] at hl
                omega) j
              constructor
              · intro h
                simp only [headMatch, Bool.and_eq_true, hms] at h
                obtain ⟨hcls, hrest⟩ := h
                obtain ⟨hlen, hall⟩ := hih.mp hrest
                refine ⟨by rw [hstrip, hsp]; simp [hlen], ?_⟩
                rw [hstrip, hsp]
                intro t ht
                rcases List.mem_cons.mp ht with rfl | ht2
                · exact ⟨c, rfl, hcls⟩
                · exact hall t ht2
              · rintro ⟨hlen, hall⟩
                rw [hstrip, hsp] at hlen hall
                have hcls : cls c = true := by
                  obtain ⟨c', hc', hx⟩ := hall [c] (List.mem_cons_self _ _)
                  have hcc : c = c' := by injection hc'
                  exact hcc ▸ hx
                have hrest : headMatch cls j rest' = true := by
                  apply hih.mpr
                  refine ⟨?_, fun t ht => hall t (List.mem_cons_of_mem _ ht)⟩
                  simp only [List.length_cons] at hlen
                  omega
                simp only [headMatch, Bool.and_eq_true, hms]
                exact ⟨hcls, hrest⟩
          · by_cases hdn : d = '\n' ∧ rest' = []
            · obtain ⟨rfl, rfl⟩ := hdn
              have hstrip : stripNl [c, '\n'] = [c] := by
                rw [stripNl_cons_cons]
                rfl
              have hsp : splitComma [c] = [[c]] := splitComma_singleton c hc
              cases k with
              | zero =>
                constructor
                · intro h
                  have hms : matchSuffix cls 0 ['\n'] = true := rfl
                  have hcls : cls c = true := by
                    simpa [headMatch, hms] using h
                  refine ⟨by rw [hstrip, hsp]; rfl, ?_⟩
                  rw [hstrip, hsp]
                  intro t ht
                  rw [List.mem_singleton] at ht
                  subst ht
                  exact ⟨c, rfl, hcls⟩
                · rintro ⟨-, hall⟩
                  obtain ⟨c', hc', hcls⟩ := hall [c]
                    (by rw [hstrip, hsp]; exact List.mem_singleton.mpr rfl)
                  have hcc : c = c' := by
                    injection hc'
                  have hms : matchSuffix cls 0 ['\n'] = true := rfl
                  simp [headMatch, hms, hcc ▸ hcls]
              | succ j =>
                constructor
                · intro h
                  have hms : matchSuffix cls (j + 1) ['\n'] = false := rfl
                  simp [headMatch, hms] at h
                · rintro ⟨hlen, -⟩
                  rw [hstrip, hsp] at hlen
                  simp at hlen
            · have hstrip : stripNl (c :: d :: rest') = c :: d :: stripNl rest' := by
                rw [stripNl_cons_cons, stripNl_cons_of d rest' hdn]
              obtain ⟨t, ts, hrest, hdrest⟩ := splitComma_cons_ne d hd (stripNl rest')
              obtain ⟨t2, ts2, hx, hfull⟩ := splitComma_cons_ne c hc (d :: stripNl rest')
              rw [hdrest] at hx
              injection hx with hx1 hx2
              subst hx1
              subst hx2
              constructor
              · intro h
                cases k with
                | zero =>
                  have hms : matchSuffix cls 0 (d :: rest') = false := by
                    cases rest' with
                    | nil =>
                      exact matchSuffix_zero_singleton cls d
                        (fun hEq => hdn ⟨hEq, rfl⟩)
                    | cons x xs => exact matchSuffix_zero_cons_cons cls d x xs
                  simp [headMatch, hms] at h
                | succ j =>
                  have hms := matchSuffix_not_comma cls j d hd rest'
                  simp [headMatch, hms] at h
              · rintro ⟨-, hall⟩
                rw [hstrip] at hall
                obtain ⟨c', hc', -⟩ := hall (c :: d :: t)
                  (by rw [hfull]; exact List.mem_cons_self _ _)
                simp at hc'

/-- Modelled from the spec's acceptance rule (claim C5): the candidate splits
into exactly `k` comma-separated numeric tokens, each parsing to a value
between 1 and `n` inclusive.  This is the spec-side reading, kept for
comparison with the code's `is_valid_answer`. -/
def specValidAnswer (s : String) (n k : Nat) : Bool :=
  ((splitComma s.data).length == k) &&
    (splitComma s.data).all (fun t =>
      match tokenNum t with
      | some v => decide (1 ≤ v ∧ v ≤ n)
      | none => false)

/-- Counterexample to C5 as stated: for `n = 10` displayed answers the
character class `[1-10]` degenerates to `{0, 1}`, so the numeric token `"10"`
(in range per the claim) is rejected while `"0"` (out of range per the claim)
is accepted. -/
theorem is_valid_answer_deviates_from_spec :
    specValidAnswer "10" 10 1 = true ∧ is_valid_answer (some "10") 10 1 = false ∧
    specValidAnswer "0" 10 1 = false ∧ is_valid_answer (some "0") 10 1 = true :=
  ⟨by decide, by decide, by decide, by decide⟩

/-- C5 (amended): for `1 ≤ n ≤ 9` displayed answers and required count
`k ≥ 1`, the validator accepts a string iff, after discarding the single
trailing newline the regex anchor may skip, it consists of exactly `k`
comma-separated single-digit tokens, each a digit between `'1'` and the digit
of `n` — in particular it accepts `"1,3"` for `k = 2, n = 5`, also with one
trailing newline appended, and rejects the empty string, `"6"` for `n = 5`,
`"1,3,4"` for `k = 2`, non-numeric tokens and leading or trailing separators;
for `n ≥ 10` the interpolated character class degenerates and the rule no
longer holds. -/
theorem is_valid_answer_single_digit_iff (s : String) (n k : Nat)
    (h1 : 1 ≤ n) (h9 : n ≤ 9) (hk : 1 ≤ k) :
    (is_valid_answer (some s) n k = true ↔
      ((splitComma (stripNl s.data)).length = k ∧
        ∀ t ∈ splitComma (stripNl s.data), ∃ c, t = [c] ∧
          '1' ≤ c ∧ c ≤ Nat.digitChar n)) := by
  have hcomma : regexCharClass n ',' = false := by
    rw [regexCharClass_small n h1 h9]
    have : ¬ (('1' : Char) ≤ ',') := by decide
    simp [this]
  have hnl : regexCharClass n '\n' = false := by
    rw [regexCharClass_small n h1 h9]
    have : ¬ (('1' : Char) ≤ '\n') := by decide
    simp [this]
  have hiff := headMatch_iff (regexCharClass n) hcomma hnl s.data.length s.data
    le_rfl (k - 1)
  rw [show is_valid_answer (some s) n k = headMatch (regexCharClass n) (k - 1) s.data
    from rfl]
  rw [hiff, show k - 1 + 1 = k from by omega]
  constructor
  · rintro ⟨hlen, hall⟩
    refine ⟨hlen, fun t ht => ?_⟩
    obtain ⟨c, rfl, hcls⟩ := hall t ht
    rw [regexCharClass_small n h1 h9] at hcls
    simp only [Bool.and_eq_true, decide_eq_true_eq] at hcls
    exact ⟨c, rfl, hcls.1, hcls.2⟩
  · rintro ⟨hlen, hall⟩
    refine ⟨hlen, fun t ht => ?_⟩
    obtain ⟨c, rfl, hle1, hle2⟩ := hall t ht
    refine ⟨c, rfl, ?_⟩
    rw [regexCharClass_small n h1 h9]
    simp [hle1, hle2]

theorem is_valid_answer_single_digit_iff_witness :
    is_valid_answer (some "1,3") 5 2 = true ∧
    is_valid_answer (some "1,3\n") 5 2 = true ∧
    ((splitComma (stripNl "1,3".data)).length = 2 ∧
      ∀ t ∈ splitComma (stripNl "1,3".data), ∃ c, t = [c] ∧
        '1' ≤ c ∧ c ≤ Nat.digitChar 5) :=
  ⟨by decide, by decide,
   (is_valid_answer_single_digit_iff "1,3" 5 2 (by decide) (by decide)
      (by decide)).mp (by decide)⟩

/-- Question with exactly two correct answers, used for the C10 instance. -/
def c10Question : Question :=
  Question.init "g10" "multi" "pick both correct ones" [] 3
    [⟨"a", true⟩, ⟨"b", true⟩, ⟨"c", false⟩] (some "q10")

/-- C10: the validator accepts repeated indices such as `"1,1"` for a required
count of 2 over any `n ≥ 1` displayed answers; `get_user_answer` then
collapses the tokens into the set `{0}`, whose cardinality 1 can never equal a
correct-index set of size 2, so such an answer always scores zero. -/
theorem repeated_indices_accepted_but_score_zero (n : Nat) (h1 : 1 ≤ n)
    (q : Question) (shufflePerm : List Nat)
    (hc : (correctIndexSet (q.shuffleAnswers shufflePerm).answers).card = 2) :
    is_valid_answer (some "1,1") n 2 = true ∧
    get_user_answer_parse "1,1" = {0} ∧
    (questionStep q shufflePerm (get_user_answer_parse "1,1")).1 = 0 := by
  have hone := regexCharClass_one n h1
  refine ⟨?_, by decide, ?_⟩
  · show headMatch (regexCharClass n) (2 - 1) ['1', ',', '1'] = true
    show (regexCharClass n '1' &&
      matchSuffix (regexCharClass n) 1 [',', '1']) = true
    rw [show matchSuffix (regexCharClass n) 1 [',', '1'] =
        (regexCharClass n '1' && matchSuffix (regexCharClass n) 0 []) from rfl]
    rw [hone]
    rfl
  · have hparse : get_user_answer_parse "1,1" = ({0} : Finset Int) := by decide
    rw [hparse]
    have hne : ({0} : Finset Int) ≠
        correctIndexSet (q.shuffleAnswers shufflePerm).answers := by
      intro he
      have hcard := congrArg Finset.card he
      rw [hc] at hcard
      simp at hcard
    simp [questionStep, hne]

theorem repeated_indices_accepted_but_score_zero_witness :
    is_valid_answer (some "1,1") 4 2 = true ∧
    get_user_answer_parse "1,1" = {0} ∧
    (questionStep c10Question [0, 1, 2] (get_user_answer_parse "1,1")).1 = 0 :=
  repeated_indices_accepted_but_score_zero 4 (by decide) c10Question [0, 1, 2]
    (by decide)

/-! ## Mutation of the quiz by the session shuffle (C6) -/

/-- The effect on the `Quiz` of the in-place `random.shuffle(answers)` at
lines 127-128 of `controller.py`: `get_questions` hands out references into
the bank and the `Question.answers` property returns the stored list itself
(`model.py` lines 71-73), so the shuffle reorders the bank entry's own answer
list. -/
def Quiz.shuffleQuestionAnswers (quiz : Quiz) (uid : String) (perm : List Nat) :
    Quiz :=
  let newBank := quiz.questions_bank.map
    (fun p => if p.1 = uid then (p.1, p.2.shuffleAnswers perm) else p)
  { quiz with questions_bank := newBank }

/-- Question whose answer ordering the C6 counterexample watches. -/
def c6Question : Question :=
  Question.init "g6" "colors" "pick the primary color" [] 1
    [⟨"Red", true⟩, ⟨"Green", false⟩] (some "q6")

/-- One-question quiz for the C6 counterexample. -/
def c6Quiz : Quiz := Quiz.init "colors quiz" "auth" "d" (some [c6Question])

/-- Counterexample to C6 as stated: after the per-question shuffle with the
transposition `[1, 0]`, the answer ordering stored in the quiz's bank for that
question has changed (Red and Green swapped) — the session mutates the
underlying Quiz. -/
theorem shuffle_mutates_stored_ordering :
    (c6Quiz.shuffleQuestionAnswers "q6" [1, 0]).bankValues.map Question.answers ≠
      c6Quiz.bankValues.map Question.answers := by decide

/-- C6 (amended): the per-question shuffle operates on the question's own
stored answer list, not on an independent copy — after presenting, the bank
entry of the presented question stores exactly the shuffled display ordering
(the same answers as before, reordered), and the other entries are
untouched. -/
theorem shuffle_in_place_updates_bank (quiz : Quiz) (uid : String) (perm : List Nat)
    (h : ∀ p ∈ quiz.questions_bank, p.1 = uid →
        perm.Perm (List.range p.2.answers.length)) :
    ∀ p ∈ (quiz.shuffleQuestionAnswers uid perm).questions_bank,
      ∃ p₀ ∈ quiz.questions_bank, p.1 = p₀.1 ∧
        p.2.answers.Perm p₀.2.answers ∧
        (p₀.1 ≠ uid → p.2 = p₀.2) ∧
        (p₀.1 = uid → p.2.answers = applyPerm perm p₀.2.answers) := by
  intro p hp
  simp only [Quiz.shuffleQuestionAnswers, List.mem_map] at hp
  obtain ⟨p₀, hp₀, rfl⟩ := hp
  by_cases he : p₀.1 = uid
  · rw [if_pos he]
    exact ⟨p₀, hp₀, rfl, applyPerm_perm _ _ (h p₀ hp₀ he),
      fun hne => absurd he hne, fun _ => rfl⟩
  · rw [if_neg he]
    exact ⟨p₀, hp₀, rfl, List.Perm.refl _, fun _ => rfl, fun hh => absurd hh he⟩

theorem shuffle_in_place_updates_bank_witness :
    ∃ p₀ ∈ c6Quiz.questions_bank,
      (("q6", c6Question.shuffleAnswers [1, 0]) : String × Question).1 = p₀.1 ∧
      ("q6", c6Question.shuffleAnswers [1, 0]).2.answers.Perm p₀.2.answers ∧
      (p₀.1 ≠ "q6" → ("q6", c6Question.shuffleAnswers [1, 0]).2 = p₀.2) ∧
      (p₀.1 = "q6" → ("q6", c6Question.shuffleAnswers [1, 0]).2.answers =
        applyPerm [1, 0] p₀.2.answers) :=
  shuffle_in_place_updates_bank c6Quiz "q6" [1, 0]
    (by
      intro p hp hid
      have : p = ("q6", c6Question) := by
        have hb : c6Quiz.questions_bank = [("q6", c6Question)] := by decide
        rw [hb, List.mem_singleton] at hp
        exact hp
      rw [this]
      decide)
    ("q6", c6Question.shuffleAnswers [1, 0]) (by decide)

end Sdjquiz
